import Mathlib

/-!
Verification development for the historical-stocks repository.

The repository ships a React frontend (search state, sorting hook, CSV
serialization, API client) whose sources are embedded below directly.
The backend Portfolio Analytics & Performance-Cache Engine (FastAPI) is
documented in the specification but its Python sources are not part of
the tree under verification; those components are modelled from the
specification, as marked in the doc comments of the relevant
definitions.

Conventions of the shallow embedding: decimal amounts are rationals
(`ℚ`), calendar dates are day numbers (`Nat`), nullable values are
`Option`, fallible operations return `Except`.
-/

/-- Trading side of a ledger transaction (spec §3: side BUY|SELL). -/
inductive Side : Type where
  | buy : Side
  | sell : Side
  deriving DecidableEq

/-- Modelled from the spec: a ledger Transaction (spec §3) — id (insertion
order), ticker, side, shares, price, trade_date as a day number. -/
structure Tx : Type where
  id : Nat
  ticker : String
  side : Side
  shares : ℚ
  price : ℚ
  tradeDate : Nat
  deriving DecidableEq

/-- Ledger replay order (spec §4.1): sort by (trade_date, id). -/
def ledgerLe (a b : Tx) : Bool :=
  Nat.blt a.tradeDate b.tradeDate ||
    (Nat.beq a.tradeDate b.tradeDate && Nat.ble a.id b.id)

/-- Insert one transaction into a ledger-ordered list. -/
def insertTx (t : Tx) : List Tx → List Tx
  | [] => [t]
  | u :: rest => if ledgerLe t u then t :: u :: rest else u :: insertTx t rest

/-- Modelled from the spec: sort a ledger by (trade_date, id) (spec §4.1). -/
def sortLedger : List Tx → List Tx
  | [] => []
  | t :: rest => insertTx t (sortLedger rest)

/-- Modelled from the spec: a derived Position (spec §3) — shares held and
average cost for one ticker. -/
structure Position : Type where
  shares : ℚ
  avgCost : ℚ
  deriving DecidableEq

/-- Mapping ticker → Position, as an association list. -/
def PosMap : Type := List (String × Position)

/-- Position recorded for a ticker; a ticker never seen holds zero shares. -/
def lookupPos (m : PosMap) (tk : String) : Position :=
  match m with
  | [] => ⟨0, 0⟩
  | (k, p) :: rest => if k = tk then p else lookupPos rest tk

/-- Store a ticker's position in the mapping. -/
def setPos (m : PosMap) (tk : String) (p : Position) : PosMap :=
  match m with
  | [] => [(tk, p)]
  | (k, q) :: rest =>
      if k = tk then (tk, p) :: rest else (k, q) :: setPos rest tk p

/-- Ledger-integrity failures raised while replaying transactions. -/
inductive LedgerError : Type where
  | insufficientShares (ticker : String) (requested held : ℚ) : LedgerError
  deriving DecidableEq

/-- Modelled from the spec: one fold step of PositionDeriver (spec §4.1).
BUY(q,p): avg_cost is replaced by the weighted mean
(shares×avg_cost + q×p)/(shares+q) and shares grows by q. SELL(q): fails
with InsufficientShares when q exceeds the shares held at that point,
otherwise shares shrinks by q and avg_cost is unchanged. -/
def applyTx (m : PosMap) (t : Tx) : Except LedgerError PosMap :=
  let p := lookupPos m t.ticker
  match t.side with
  | Side.buy =>
      Except.ok (setPos m t.ticker
        ⟨p.shares + t.shares,
         (p.shares * p.avgCost + t.shares * t.price) / (p.shares + t.shares)⟩)
  | Side.sell =>
      if p.shares < t.shares then
        Except.error (LedgerError.insufficientShares t.ticker t.shares p.shares)
      else
        Except.ok (setPos m t.ticker ⟨p.shares - t.shares, p.avgCost⟩)

/-- Sequential fold of an already-ordered transaction list (spec §4.1). -/
def replay (m : PosMap) : List Tx → Except LedgerError PosMap
  | [] => Except.ok m
  | t :: rest =>
      match applyTx m t with
      | Except.error e => Except.error e
      | Except.ok m2 => replay m2 rest

/-- Modelled from the spec: PositionDeriver (spec §4.1) — sort by
(trade_date, id) then fold sequentially from empty holdings. -/
def derivePositions (txs : List Tx) : Except LedgerError PosMap :=
  replay [] (sortLedger txs)

/-- Batch-level import failure carrying the row-level ledger failure
(spec §5, §7: ImportValidationError). -/
inductive ImportError : Type where
  | importValidationError (e : LedgerError) : ImportError
  deriving DecidableEq

/-- Modelled from the spec: CSV import (spec §5) — all-or-nothing: the whole
existing+pending ledger is validated through PositionDeriver before any row
is committed; on failure the ledger is left as it was. -/
def importTransactions (existing batch : List Tx) :
    Except ImportError (List Tx) :=
  match derivePositions (existing ++ batch) with
  | Except.error e => Except.error (ImportError.importValidationError e)
  | Except.ok _ => Except.ok (existing ++ batch)

theorem replay_append (a b : List Tx) (m : PosMap) :
    replay m (a ++ b) =
      match replay m a with
      | Except.error e => Except.error e
      | Except.ok m2 => replay m2 b := by
  induction a generalizing m with
  | nil => simp [replay]
  | cons t rest ih =>
      simp only [List.cons_append, replay]
      cases applyTx m t with
      | error e => rfl
      | ok m2 => exact ih m2

theorem lookupPos_setPos (m : PosMap) (tk : String) (p : Position) :
    lookupPos (setPos m tk p) tk = p := by
  induction m with
  | nil => simp [setPos, lookupPos]
  | cons hd rest ih =>
      obtain ⟨k, q⟩ := hd
      by_cases hk : k = tk
      · simp [setPos, hk, lookupPos]
      · simp [setPos, hk, lookupPos, ih]

/-- Claim C1: replaying a ledger in (trade_date, id) order, a SELL whose
quantity exceeds the shares held for its ticker at that point fails with
InsufficientShares no matter what later transactions (including offsetting
BUYs) follow; the same rejection is produced by PositionDeriver on the
sorted ledger and by CSV import, which validates the entire batch against
ledger order and commits nothing on failure. -/
theorem oversell_fails_insufficientShares
    (pre post : List Tx) (t : Tx) (m : PosMap)
    (hpre : replay [] pre = Except.ok m)
    (hside : t.side = Side.sell)
    (hover : (lookupPos m t.ticker).shares < t.shares) :
    replay [] (pre ++ t :: post) =
      Except.error (LedgerError.insufficientShares t.ticker t.shares
        (lookupPos m t.ticker).shares) ∧
    (∀ txs : List Tx, sortLedger txs = pre ++ t :: post →
      derivePositions txs =
        Except.error (LedgerError.insufficientShares t.ticker t.shares
          (lookupPos m t.ticker).shares)) ∧
    (∀ existing batch : List Tx,
      sortLedger (existing ++ batch) = pre ++ t :: post →
      importTransactions existing batch =
        Except.error (ImportError.importValidationError
          (LedgerError.insufficientShares t.ticker t.shares
            (lookupPos m t.ticker).shares))) := by
  have hstep : replay [] (pre ++ t :: post) =
      Except.error (LedgerError.insufficientShares t.ticker t.shares
        (lookupPos m t.ticker).shares) := by
    rw [replay_append, hpre]
    simp only [replay, applyTx, hside]
    rw [if_pos hover]
  refine ⟨hstep, ?_, ?_⟩
  · intro txs hsort
    unfold derivePositions
    rw [hsort, hstep]
  · intro existing batch hsort
    unfold importTransactions derivePositions
    rw [hsort, hstep]

/-- Example oversell ledger: SELL 5 AAPL on day 1 with nothing held, then a
later-dated BUY 10 AAPL on day 2. -/
def sellEx : Tx := ⟨1, "AAPL", Side.sell, 5, 10, 1⟩

/-- Later offsetting BUY used in the oversell example. -/
def buyEx : Tx := ⟨2, "AAPL", Side.buy, 10, 10, 2⟩

theorem oversell_fails_insufficientShares_witness :
    replay [] ([] ++ sellEx :: [buyEx]) =
      Except.error (LedgerError.insufficientShares "AAPL" 5 0) ∧
    derivePositions [sellEx, buyEx] =
      Except.error (LedgerError.insufficientShares "AAPL" 5 0) ∧
    importTransactions [] [sellEx, buyEx] =
      Except.error (ImportError.importValidationError
        (LedgerError.insufficientShares "AAPL" 5 0)) := by
  have h := oversell_fails_insufficientShares [] [buyEx] sellEx []
    (by rfl) (by rfl) (by norm_num [lookupPos, sellEx])
  have h0 : lookupPos ([] : PosMap) sellEx.ticker = ⟨0, 0⟩ := rfl
  refine ⟨h.1, h.2.1 [sellEx, buyEx] (by decide), h.2.2 [] [sellEx, buyEx] (by decide)⟩

/-- Claim C2: one PositionDeriver fold step — a BUY of q shares at price p
moves the position for its ticker to shares+q shares with average cost
(shares×avg_cost + q×p)/(shares+q); a SELL that does not exceed the shares
held reduces shares by q and leaves average_cost unchanged. -/
theorem fold_step_buy_sell_update (m : PosMap) (t : Tx) :
    (t.side = Side.buy →
      ∃ m2, applyTx m t = Except.ok m2 ∧
        (lookupPos m2 t.ticker).shares =
          (lookupPos m t.ticker).shares + t.shares ∧
        (lookupPos m2 t.ticker).avgCost =
          ((lookupPos m t.ticker).shares * (lookupPos m t.ticker).avgCost +
            t.shares * t.price) /
            ((lookupPos m t.ticker).shares + t.shares)) ∧
    (t.side = Side.sell → t.shares ≤ (lookupPos m t.ticker).shares →
      ∃ m2, applyTx m t = Except.ok m2 ∧
        (lookupPos m2 t.ticker).shares =
          (lookupPos m t.ticker).shares - t.shares ∧
        (lookupPos m2 t.ticker).avgCost = (lookupPos m t.ticker).avgCost) := by
  constructor
  · intro hb
    refine ⟨setPos m t.ticker
      ⟨(lookupPos m t.ticker).shares + t.shares,
       ((lookupPos m t.ticker).shares * (lookupPos m t.ticker).avgCost +
         t.shares * t.price) / ((lookupPos m t.ticker).shares + t.shares)⟩,
      ?_, ?_, ?_⟩
    · simp only [applyTx, hb]
    · rw [lookupPos_setPos]
    · rw [lookupPos_setPos]
  · intro hs hle
    have hnot : ¬ (lookupPos m t.ticker).shares < t.shares := not_lt.mpr hle
    refine ⟨setPos m t.ticker
      ⟨(lookupPos m t.ticker).shares - t.shares,
       (lookupPos m t.ticker).avgCost⟩, ?_, ?_, ?_⟩
    · simp only [applyTx, hs]
      rw [if_neg hnot]
    · rw [lookupPos_setPos]
    · rw [lookupPos_setPos]

/-- Example position map holding 10 AAPL at average cost 100. -/
def posMapEx : PosMap := [("AAPL", ⟨10, 100⟩)]

/-- Example BUY: 10 more AAPL at 120. -/
def buyEx2 : Tx := ⟨3, "AAPL", Side.buy, 10, 120, 3⟩

/-- Example SELL: 4 AAPL out of the 10 held. -/
def sellEx2 : Tx := ⟨4, "AAPL", Side.sell, 4, 130, 4⟩

theorem fold_step_buy_sell_update_witness :
    (∃ m2, applyTx posMapEx buyEx2 = Except.ok m2 ∧
      (lookupPos m2 "AAPL").shares = 10 + 10 ∧
      (lookupPos m2 "AAPL").avgCost = (10 * 100 + 10 * 120) / (10 + 10)) ∧
    (∃ m2, applyTx posMapEx sellEx2 = Except.ok m2 ∧
      (lookupPos m2 "AAPL").shares = 10 - 4 ∧
      (lookupPos m2 "AAPL").avgCost = 100) := by
  have hb := (fold_step_buy_sell_update posMapEx buyEx2).1 (by rfl)
  have hs := (fold_step_buy_sell_update posMapEx sellEx2).2 (by rfl) (by norm_num [posMapEx, lookupPos, sellEx2])
  constructor
  · obtain ⟨m2, h1, h2, h3⟩ := hb
    exact ⟨m2, h1, by simpa [posMapEx, lookupPos, buyEx2] using h2,
      by simpa [posMapEx, lookupPos, buyEx2] using h3⟩
  · obtain ⟨m2, h1, h2, h3⟩ := hs
    exact ⟨m2, h1, by simpa [posMapEx, lookupPos, sellEx2] using h2,
      by simpa [posMapEx, lookupPos, sellEx2] using h3⟩

/-- Modelled from the spec: a PerformancePoint (spec §3) — date,
portfolio_index and benchmark_index, both base 100 at range start. -/
structure PerformancePoint : Type where
  date : Nat
  portfolioIndex : ℚ
  benchmarkIndex : ℚ
  deriving DecidableEq

/-- Modelled from the spec: a cache key (spec §3) —
(portfolio_id, start_date, end_date, benchmark_id). -/
structure CacheKey : Type where
  portfolioId : Nat
  startDate : Nat
  endDate : Nat
  benchmark : String
  deriving DecidableEq

/-- Modelled from the spec: a CacheEntry (spec §3) — cached series plus
written_at and portfolio_version_at_write. -/
structure CacheEntry : Type where
  series : List PerformancePoint
  writtenAt : Nat
  versionAtWrite : Nat
  deriving DecidableEq

/-- Cache store lookup in the association list of entries. -/
def cacheLookup : List (CacheKey × CacheEntry) → CacheKey → Option CacheEntry
  | [], _ => none
  | (k2, e) :: rest, k => if k2 = k then some e else cacheLookup rest k

/-- Cache store write-through. -/
def cacheSet : List (CacheKey × CacheEntry) → CacheKey → CacheEntry →
    List (CacheKey × CacheEntry)
  | [], k, e => [(k, e)]
  | (k2, e2) :: rest, k, e =>
      if k2 = k then (k, e) :: rest else (k2, e2) :: cacheSet rest k e

/-- Modelled from the spec: per-portfolio engine state (spec §3, §4.6) — the
monotonic version counter (starts at 1), the transaction ledger, and the
performance cache store (invalidation policy (b): mutations bump the version
and `get` lazily treats stale entries as misses). -/
structure EngineState : Type where
  version : Nat
  ledger : List Tx
  cache : List (CacheKey × CacheEntry)
  deriving DecidableEq

/-- Modelled from the spec: a freshly created portfolio has version 1
(spec §3). -/
def newPortfolioState : EngineState := ⟨1, [], []⟩

/-- Modelled from the spec: addTransaction as a ledger mutation (spec §2,
§4.6) — append the transaction and bump the version; the cache store is left
for lazy version comparison. -/
def addTransactionMut (s : EngineState) (t : Tx) : EngineState :=
  ⟨s.version + 1, s.ledger ++ [t], s.cache⟩

/-- Modelled from the spec: deleteTransaction as a ledger mutation (spec §2,
§4.6) — drop the transaction with the given id and bump the version. -/
def deleteTransactionMut (s : EngineState) (txId : Nat) : EngineState :=
  ⟨s.version + 1, s.ledger.filter (fun t => !(Nat.beq t.id txId)), s.cache⟩

/-- Modelled from the spec: a committed (validated) CSV import as a ledger
mutation (spec §2, §4.6) — append the batch and bump the version. -/
def importTransactionsMut (s : EngineState) (batch : List Tx) : EngineState :=
  ⟨s.version + 1, s.ledger ++ batch, s.cache⟩

/-- Modelled from the spec: entry validity at `get` time (spec §3, §4.6) —
an entry is a miss when portfolio_version_at_write < current version or when
now − written_at exceeds the TTL. -/
def cacheEntryValid (v : Nat) (e : CacheEntry) (now ttl : Nat) : Bool :=
  Nat.ble v e.versionAtWrite && Nat.ble (now - e.writtenAt) ttl

/-- Modelled from the spec: getPerformance read path (spec §4.6) — on a valid
cached entry return it (recompute flag false); otherwise recompute from the
current ledger, write through tagged with the current version, and return the
fresh value (recompute flag true). -/
def getPerformanceCall (compute : List Tx → CacheKey → List PerformancePoint)
    (s : EngineState) (k : CacheKey) (now ttl : Nat) :
    List PerformancePoint × Bool × EngineState :=
  match cacheLookup s.cache k with
  | some e =>
      if cacheEntryValid s.version e now ttl then (e.series, false, s)
      else
        let v := compute s.ledger k
        (v, true, ⟨s.version, s.ledger, cacheSet s.cache k ⟨v, now, s.version⟩⟩)
  | none =>
      let v := compute s.ledger k
      (v, true, ⟨s.version, s.ledger, cacheSet s.cache k ⟨v, now, s.version⟩⟩)

/-- Claim C3: every mutating ledger call strictly increases the portfolio
version, which starts at 1; and after any such mutation, a getPerformance
call with the same key never answers from a cache entry written before the
mutation (one whose version-at-write is at most the pre-mutation version) —
it recomputes from the post-mutation ledger. -/
theorem mutation_bumps_version_forces_recompute
    (compute : List Tx → CacheKey → List PerformancePoint)
    (s : EngineState) (t : Tx) (txId : Nat) (batch : List Tx)
    (k : CacheKey) (now ttl : Nat) (e : CacheEntry)
    (hent : cacheLookup s.cache k = some e)
    (hold : e.versionAtWrite ≤ s.version) :
    newPortfolioState.version = 1 ∧
    s.version < (addTransactionMut s t).version ∧
    s.version < (deleteTransactionMut s txId).version ∧
    s.version < (importTransactionsMut s batch).version ∧
    ((getPerformanceCall compute (addTransactionMut s t) k now ttl).2.1 = true ∧
     (getPerformanceCall compute (addTransactionMut s t) k now ttl).1 =
       compute (addTransactionMut s t).ledger k) ∧
    ((getPerformanceCall compute (deleteTransactionMut s txId) k now ttl).2.1 = true ∧
     (getPerformanceCall compute (deleteTransactionMut s txId) k now ttl).1 =
       compute (deleteTransactionMut s txId).ledger k) ∧
    ((getPerformanceCall compute (importTransactionsMut s batch) k now ttl).2.1 = true ∧
     (getPerformanceCall compute (importTransactionsMut s batch) k now ttl).1 =
       compute (importTransactionsMut s batch).ledger k) := by
  have hstale : cacheEntryValid (s.version + 1) e now ttl = false := by
    have hlt : ¬ (s.version + 1 ≤ e.versionAtWrite) := by omega
    simp [cacheEntryValid, Nat.ble_eq, hlt]
  refine ⟨rfl, Nat.lt_succ_self _, Nat.lt_succ_self _, Nat.lt_succ_self _, ?_, ?_, ?_⟩
  · constructor
    · simp [getPerformanceCall, addTransactionMut, hent, hstale]
    · simp [getPerformanceCall, addTransactionMut, hent, hstale]
  · constructor
    · simp [getPerformanceCall, deleteTransactionMut, hent, hstale]
    · simp [getPerformanceCall, deleteTransactionMut, hent, hstale]
  · constructor
    · simp [getPerformanceCall, importTransactionsMut, hent, hstale]
    · simp [getPerformanceCall, importTransactionsMut, hent, hstale]

/-- Example cache key used by the cache-invalidation witness. -/
def keyEx : CacheKey := ⟨7, 1, 9, "SP500"⟩

/-- Example cached entry written at version 3. -/
def entryEx : CacheEntry := ⟨[⟨1, 100, 100⟩], 50, 3⟩

/-- Example engine state at version 3 holding one cached entry. -/
def stateEx : EngineState := ⟨3, [buyEx], [(keyEx, entryEx)]⟩

/-- Example recompute function standing in for series building. -/
def computeEx : List Tx → CacheKey → List PerformancePoint :=
  fun l _ => [⟨l.length, 100, 100⟩]

theorem mutation_bumps_version_forces_recompute_witness :
    newPortfolioState.version = 1 ∧
    stateEx.version < (addTransactionMut stateEx sellEx).version ∧
    stateEx.version < (deleteTransactionMut stateEx 2).version ∧
    stateEx.version < (importTransactionsMut stateEx [sellEx]).version ∧
    ((getPerformanceCall computeEx (addTransactionMut stateEx sellEx) keyEx 60 300).2.1 = true ∧
     (getPerformanceCall computeEx (addTransactionMut stateEx sellEx) keyEx 60 300).1 =
       computeEx (addTransactionMut stateEx sellEx).ledger keyEx) ∧
    ((getPerformanceCall computeEx (deleteTransactionMut stateEx 2) keyEx 60 300).2.1 = true ∧
     (getPerformanceCall computeEx (deleteTransactionMut stateEx 2) keyEx 60 300).1 =
       computeEx (deleteTransactionMut stateEx 2).ledger keyEx) ∧
    ((getPerformanceCall computeEx (importTransactionsMut stateEx [sellEx]) keyEx 60 300).2.1 = true ∧
     (getPerformanceCall computeEx (importTransactionsMut stateEx [sellEx]) keyEx 60 300).1 =
       computeEx (importTransactionsMut stateEx [sellEx]).ledger keyEx) :=
  mutation_bumps_version_forces_recompute computeEx stateEx sellEx 2 [sellEx]
    keyEx 60 300 entryEx (by decide) (by decide)

/-- Embedded from frontend/src/utils/csv.js: the quoting trigger of
`toCsvValue` — the regex test for a double quote, comma, or newline. -/
def needsQuote (s : String) : Bool :=
  s.data.any (fun c => c == '"' || c == ',' || c == '\n')

/-- Embedded from frontend/src/utils/csv.js: the replace step of
`toCsvValue` doubling every embedded double quote. -/
def escapeQuotes (s : String) : String :=
  String.mk (s.data.foldr
    (fun c acc => if c == '"' then '"' :: '"' :: acc else c :: acc) [])

/-- Embedded from frontend/src/utils/csv.js: `toCsvValue` — a nullish value
becomes the empty string; a field containing a quote, comma, or newline is
wrapped in double quotes with embedded quotes doubled; any other field is
emitted verbatim. -/
def toCsvValue (v : Option String) : String :=
  let s := v.getD ""
  if needsQuote s then "\"" ++ escapeQuotes s ++ "\"" else s

/-- Embedded from frontend/src/utils/csv.js: one output line of
`downloadCsv` — the fields serialized and joined with commas. -/
def csvLine (fields : List (Option String)) : String :=
  String.intercalate "," (fields.map toCsvValue)

/-- Embedded from frontend/src/utils/csv.js: the `csvText` built by
`downloadCsv` — a UTF-8 byte-order mark, then the header line and one line
per row, joined with newlines. -/
def downloadCsvText (header : List (Option String))
    (rows : List (List (Option String))) : String :=
  "\uFEFF" ++ String.intercalate "\n" (csvLine header :: rows.map csvLine)

/-- Restatement of claim C4's wording: a field needs quoting when it
contains a comma, a double quote, or a newline. -/
def specQuoteNeeded (s : String) : Prop :=
  ',' ∈ s.data ∨ '"' ∈ s.data ∨ '\n' ∈ s.data

instance (s : String) : Decidable (specQuoteNeeded s) := by
  unfold specQuoteNeeded
  infer_instance

theorem needsQuote_iff (s : String) : needsQuote s = true ↔ specQuoteNeeded s := by
  unfold needsQuote specQuoteNeeded
  simp only [List.any_eq_true, Bool.or_eq_true, beq_iff_eq]
  constructor
  · rintro ⟨c, hc, hor⟩
    rcases hor with (h | h) | h <;> subst h
    · exact Or.inr (Or.inl hc)
    · exact Or.inl hc
    · exact Or.inr (Or.inr hc)
  · rintro (h | h | h)
    · exact ⟨',', h, Or.inl (Or.inr rfl)⟩
    · exact ⟨'"', h, Or.inl (Or.inl rfl)⟩
    · exact ⟨'\n', h, Or.inr rfl⟩

/-- Claim C4: the CSV export text is the byte-order-mark character followed
by the serialized header line and one serialized line per record in order,
joined by newlines; a field is wrapped in double quotes with embedded
quotes doubled exactly when it contains a comma, double quote, or newline,
and is emitted verbatim otherwise. -/
theorem csv_export_format (header : List (Option String))
    (rows : List (List (Option String))) (s : String) :
    (downloadCsvText header rows).data =
      '\uFEFF' :: (String.intercalate "\n"
        (csvLine header :: rows.map csvLine)).data ∧
    (∀ i : Nat, (csvLine header :: rows.map csvLine)[i + 1]? =
      (rows[i]?).map csvLine) ∧
    (specQuoteNeeded s →
      toCsvValue (some s) = "\"" ++ escapeQuotes s ++ "\"") ∧
    (¬ specQuoteNeeded s → toCsvValue (some s) = s) := by
  refine ⟨?_, ?_, ?_, ?_⟩
  · rfl
  · intro i
    simp
  · intro h
    have hb : needsQuote s = true := (needsQuote_iff s).mpr h
    simp [toCsvValue, hb]
  · intro h
    have hb : needsQuote s = false := by
      cases hq : needsQuote s
      · rfl
      · exact absurd ((needsQuote_iff s).mp hq) h
    simp [toCsvValue, hb]

theorem csv_export_format_witness :
    (downloadCsvText [some "ticker", some "return"]
        [[some "AAPL", some "0.1"], [some "a,b", none]]).data =
      '\uFEFF' :: (String.intercalate "\n"
        (csvLine [some "ticker", some "return"] ::
          [[some "AAPL", some "0.1"], [some "a,b", none]].map csvLine)).data ∧
    ((csvLine [some "ticker", some "return"] ::
        [[some "AAPL", some "0.1"], [some "a,b", none]].map csvLine)[0 + 1]? =
      ([[some "AAPL", some "0.1"], [some "a,b", none]][0]?).map csvLine) ∧
    toCsvValue (some "a,\"b") = "\"" ++ escapeQuotes "a,\"b" ++ "\"" ∧
    toCsvValue (some "plain") = "plain" := by
  have h1 := csv_export_format [some "ticker", some "return"]
    [[some "AAPL", some "0.1"], [some "a,b", none]] "a,\"b"
  have h2 := csv_export_format [some "ticker", some "return"]
    [[some "AAPL", some "0.1"], [some "a,b", none]] "plain"
  exact ⟨h1.1, h1.2.1 0, h1.2.2.1 (by decide), h2.2.2.2 (by decide)⟩

/-- Modelled from the spec: a raw derived position entering valuation
(spec §4.2) — ticker, shares, average cost. -/
structure RawPosition : Type where
  ticker : String
  shares : ℚ
  avgCost : ℚ
  deriving DecidableEq

/-- Modelled from the spec: a valued position inside a ValuationSnapshot
(spec §3) — market_value, weight and unrealized_pl are null when no price
resolves. -/
structure ValuedPosition : Type where
  ticker : String
  shares : ℚ
  avgCost : ℚ
  marketValue : Option ℚ
  weight : Option ℚ
  unrealizedPl : Option ℚ
  deriving DecidableEq

/-- Modelled from the spec: a ValuationSnapshot (spec §3, §4.2). -/
structure ValuationSnapshot : Type where
  positions : List ValuedPosition
  holdingsValue : ℚ
  cashCurrent : ℚ
  totalValue : ℚ
  deriving DecidableEq

/-- Modelled from the spec: market values per nonzero position (spec §4.2) —
zero-share positions are excluded, market_value = shares × last close, null
when the price oracle has no price. -/
def marketValues (price : String → Option ℚ) (positions : List RawPosition) :
    List (RawPosition × Option ℚ) :=
  (positions.filter (fun p => !(decide (p.shares = 0)))).map
    (fun p => (p, (price p.ticker).map (fun c => p.shares * c)))

/-- Holdings value: sum of the non-null market values (spec §3). -/
def holdingsValueOf (l : List (RawPosition × Option ℚ)) : ℚ :=
  (l.map (fun x => x.2.getD 0)).sum

/-- Modelled from the spec: finishing one valued position (spec §3, §4.2) —
weight = market_value / total_value when total_value > 0 and null otherwise,
unrealized_pl = market_value − shares×average_cost, both propagated as null
when market_value is null. -/
def mkValued (total : ℚ) (x : RawPosition × Option ℚ) : ValuedPosition :=
  ⟨x.1.ticker, x.1.shares, x.1.avgCost, x.2,
   if 0 < total then x.2.map (fun mv => mv / total) else none,
   x.2.map (fun mv => mv - x.1.shares * x.1.avgCost)⟩

/-- Modelled from the spec: ValuationEngine (spec §4.2) — combine positions,
price lookups and the cash balance into a ValuationSnapshot with
total_value = holdings_value + cash. -/
def deriveValuation (positions : List RawPosition)
    (price : String → Option ℚ) (cash : ℚ) : ValuationSnapshot :=
  let l := marketValues price positions
  let holdings := holdingsValueOf l
  let total := holdings + cash
  ⟨l.map (mkValued total), holdings, cash, total⟩

theorem sum_weights_eq_holdings_div (l : List (RawPosition × Option ℚ))
    (t : ℚ) (ht : 0 < t) :
    ((l.map (mkValued t)).map (fun vp => vp.weight.getD 0)).sum =
      holdingsValueOf l / t := by
  induction l with
  | nil => simp [holdingsValueOf]
  | cons x rest ih =>
      have hx : ((mkValued t x).weight.getD 0) = x.2.getD 0 / t := by
        cases hmv : x.2 with
        | none => simp [mkValued, hmv, if_pos ht]
        | some v => simp [mkValued, hmv, if_pos ht]
      simp only [List.map_cons, List.sum_cons, hx, ih]
      unfold holdingsValueOf
      simp [add_div]

/-- Claim C5: in every derived ValuationSnapshot with total_value > 0 the
weights of the priced positions (null weights contribute nothing) plus the
cash share cash/total_value reconcile to 1 within tolerance 1e-9; when
total_value = 0 every position weight is null. -/
theorem valuation_weights_reconcile (positions : List RawPosition)
    (price : String → Option ℚ) (cash : ℚ) :
    (0 < (deriveValuation positions price cash).totalValue →
      |((deriveValuation positions price cash).positions.map
          (fun vp => vp.weight.getD 0)).sum +
        (deriveValuation positions price cash).cashCurrent /
          (deriveValuation positions price cash).totalValue - 1| ≤
        1 / 1000000000) ∧
    ((deriveValuation positions price cash).totalValue = 0 →
      ∀ vp ∈ (deriveValuation positions price cash).positions,
        vp.weight = none) := by
  constructor
  · intro ht
    have htv : (deriveValuation positions price cash).totalValue =
        holdingsValueOf (marketValues price positions) + cash := rfl
    have hsum := sum_weights_eq_holdings_div (marketValues price positions)
      ((deriveValuation positions price cash).totalValue) ht
    have hps : (deriveValuation positions price cash).positions =
        (marketValues price positions).map
          (mkValued ((deriveValuation positions price cash).totalValue)) := rfl
    have hcash : (deriveValuation positions price cash).cashCurrent = cash := rfl
    rw [hps, hsum, hcash]
    have hne : (deriveValuation positions price cash).totalValue ≠ 0 :=
      ne_of_gt ht
    rw [div_add_div_same, ← htv, div_self hne]
    norm_num
  · intro ht vp hvp
    have hps : (deriveValuation positions price cash).positions =
        (marketValues price positions).map
          (mkValued ((deriveValuation positions price cash).totalValue)) := rfl
    rw [hps] at hvp
    obtain ⟨x, _, hx⟩ := List.mem_map.mp hvp
    have : ¬ (0 < (deriveValuation positions price cash).totalValue) := by
      rw [ht]
      exact lt_irrefl 0
    rw [← hx]
    simp [mkValued, this]

/-- Example raw positions: priced AAPL, a zero-share row, an unpriced
ticker. -/
def rawPositionsEx : List RawPosition :=
  [⟨"AAPL", 10, 100⟩, ⟨"MSFT", 0, 50⟩, ⟨"NOPX", 2, 30⟩]

/-- Example price oracle pricing only AAPL. -/
def priceEx : String → Option ℚ :=
  fun tk => if tk = "AAPL" then some 110 else none

theorem valuation_weights_reconcile_witness :
    |((deriveValuation rawPositionsEx priceEx 5).positions.map
        (fun vp => vp.weight.getD 0)).sum +
      (deriveValuation rawPositionsEx priceEx 5).cashCurrent /
        (deriveValuation rawPositionsEx priceEx 5).totalValue - 1| ≤
      1 / 1000000000 ∧
    (∀ vp ∈ (deriveValuation [⟨"AAPL", 1, 10⟩] (fun _ => none) 0).positions,
      vp.weight = none) :=
  ⟨(valuation_weights_reconcile rawPositionsEx priceEx 5).1
      (by
        simp +decide [deriveValuation, marketValues, holdingsValueOf,
          rawPositionsEx, priceEx]
        norm_num),
   (valuation_weights_reconcile [⟨"AAPL", 1, 10⟩] (fun _ => none) 0).2
      (by norm_num [deriveValuation, marketValues, holdingsValueOf])⟩

/-- Modelled from the spec: normalization of one value series to index
points (spec §4.3) — days before the first positive value keep the
conventional index 100; from the first positive value b onward the index is
100 × value / b. -/
def indexFrom (b : ℚ) (started : Bool) : List ℚ → List ℚ
  | [] => []
  | v :: rest =>
      if started || decide (0 < v) then 100 * v / b :: indexFrom b true rest
      else 100 :: indexFrom b false rest

/-- Modelled from the spec: index a value series to base 100 (spec §4.3) —
the base is the value at range start when positive, otherwise the first
positive value; a series with no positive value stays at the conventional
100. -/
def indexSeries (vs : List ℚ) : List ℚ :=
  match vs.find? (fun v => decide (0 < v)) with
  | none => vs.map (fun _ => (100 : ℚ))
  | some b => indexFrom b false vs

/-- Date-range failure of the series builder (spec §4.3, §7). -/
inductive RangeError : Type where
  | emptyRange : RangeError
  deriving DecidableEq

/-- Trading days of the external calendar falling inside the range. -/
def tradingDaysInRange (cal : List Nat) (startDate endDate : Nat) : List Nat :=
  cal.filter (fun d => Nat.ble startDate d && Nat.ble d endDate)

/-- Zip dates with the two index series into PerformancePoints. -/
def mkPoints : List Nat → List ℚ → List ℚ → List PerformancePoint
  | d :: ds, p :: ps, b :: bs => ⟨d, p, b⟩ :: mkPoints ds ps bs
  | _, _, _ => []

/-- Modelled from the spec: PerformanceSeriesBuilder (spec §4.3) — fails
with EmptyRange when start_date > end_date or no trading day falls in
range; otherwise emits one point per trading day with the portfolio and
benchmark value series indexed to base 100 at range start. -/
def buildPerformanceSeries (cal : List Nat) (startDate endDate : Nat)
    (pv bv : Nat → ℚ) : Except RangeError (List PerformancePoint) :=
  if Nat.blt endDate startDate then Except.error RangeError.emptyRange
  else
    match tradingDaysInRange cal startDate endDate with
    | [] => Except.error RangeError.emptyRange
    | d :: rest =>
        Except.ok (mkPoints (d :: rest)
          (indexSeries ((d :: rest).map pv))
          (indexSeries ((d :: rest).map bv)))

theorem indexSeries_head (v : ℚ) (rest : List ℚ) :
    ∃ tail, indexSeries (v :: rest) = 100 :: tail := by
  unfold indexSeries
  cases hf : (v :: rest).find? (fun v => decide (0 < v)) with
  | none => exact ⟨rest.map (fun _ => (100 : ℚ)), rfl⟩
  | some b =>
      by_cases hv : 0 < v
      · have hb : b = v := by
          rw [List.find?_cons_of_pos _ (by simpa using hv)] at hf
          exact (Option.some.injEq _ _).mp hf.symm ▸ rfl
        subst hb
        refine ⟨indexFrom b true rest, ?_⟩
        unfold indexFrom
        rw [if_pos (by simpa using hv)]
        rw [mul_div_assoc, div_self (ne_of_gt hv), mul_one]
        cases rest <;> simp [indexFrom]
      · refine ⟨indexFrom b false rest, ?_⟩
        unfold indexFrom
        rw [if_neg (by simpa using hv)]
        cases rest <;> simp [indexFrom]

/-- Claim C6: every series the builder returns is non-empty and its first
PerformancePoint carries portfolio_index = 100 and benchmark_index = 100
exactly, the zero-value start date included by the 100-by-convention
branch. -/
theorem first_point_is_100 (cal : List Nat) (startDate endDate : Nat)
    (pv bv : Nat → ℚ) (series : List PerformancePoint)
    (h : buildPerformanceSeries cal startDate endDate pv bv =
      Except.ok series) :
    ∃ d tail, series = (⟨d, 100, 100⟩ : PerformancePoint) :: tail := by
  unfold buildPerformanceSeries at h
  by_cases hlt : Nat.blt endDate startDate = true
  · rw [if_pos hlt] at h
    exact absurd h (by simp)
  · rw [if_neg hlt] at h
    cases hdays : tradingDaysInRange cal startDate endDate with
    | nil =>
        rw [hdays] at h
        exact absurd h (by simp)
    | cons d rest =>
        rw [hdays] at h
        obtain ⟨t1, h1⟩ := indexSeries_head (pv d) (rest.map pv)
        obtain ⟨t2, h2⟩ := indexSeries_head (bv d) (rest.map bv)
        simp only [List.map_cons] at h
        rw [h1, h2] at h
        refine ⟨d, mkPoints rest t1 t2, ?_⟩
        cases h
        rfl

theorem first_point_is_100_witness :
    ∃ d tail,
      [(⟨5, 100, 100⟩ : PerformancePoint), ⟨6, 100, 100⟩] =
        (⟨d, 100, 100⟩ : PerformancePoint) :: tail :=
  first_point_is_100 [5, 6] 5 6 (fun _ => 0) (fun _ => 2)
    [⟨5, 100, 100⟩, ⟨6, 100, 100⟩] (by
      simp +decide [buildPerformanceSeries, tradingDaysInRange, indexSeries,
        indexFrom, mkPoints])

/-- Embedded from frontend/src/hooks/useSearchState.js: the inputs
`submitSearch` reads — the selected mode flags, the two dates, and the
ticker text. -/
structure SearchForm : Type where
  startDate : Int
  endDate : Int
  hasMode : Bool
  showTicker : Bool
  ticker : String
  deriving DecidableEq

/-- Outcome of one `submitSearch` call: the error message set (empty when
none) and whether a backend request was issued. -/
structure SearchResult : Type where
  error : String
  requested : Bool
  deriving DecidableEq

/-- Embedded from frontend/src/hooks/useSearchState.js: the guard chain of
`submitSearch` — no mode, start date after end date, then missing ticker
each set an error message and return before any request; otherwise the
request is issued. -/
def submitSearch (f : SearchForm) : SearchResult :=
  if !f.hasMode then ⟨"Choose an action to begin.", false⟩
  else if decide (f.endDate < f.startDate) then
    ⟨"Start date must be before end date.", false⟩
  else if f.showTicker && (f.ticker.trim == "") then
    ⟨"Enter a stock ticker (ex: AAPL).", false⟩
  else ⟨"", true⟩

/-- Claim C8: a performance request whose start date is after its end date,
or whose range holds no trading day, fails with EmptyRange before any
series computation; and in the frontend, `submitSearch` with
startDate > endDate sets a non-empty error and issues no request. -/
theorem empty_range_rejected (cal : List Nat) (s e : Nat)
    (pv bv : Nat → ℚ) (f : SearchForm) :
    (e < s →
      buildPerformanceSeries cal s e pv bv =
        Except.error RangeError.emptyRange) ∧
    (tradingDaysInRange cal s e = [] →
      buildPerformanceSeries cal s e pv bv =
        Except.error RangeError.emptyRange) ∧
    (f.endDate < f.startDate →
      (submitSearch f).requested = false ∧ (submitSearch f).error ≠ "") := by
  refine ⟨?_, ?_, ?_⟩
  · intro hlt
    unfold buildPerformanceSeries
    rw [if_pos (Nat.blt_eq.mpr hlt)]
  · intro hdays
    unfold buildPerformanceSeries
    by_cases hlt : Nat.blt e s = true
    · rw [if_pos hlt]
    · rw [if_neg hlt, hdays]
  · intro hdate
    unfold submitSearch
    cases hm : f.hasMode with
    | false =>
        rw [Bool.not_false, if_pos rfl]
        exact ⟨rfl, by decide⟩
    | true =>
        rw [if_neg (by simp), if_pos (by simpa using hdate)]
        exact ⟨rfl, by decide⟩

/-- Example form with start date after end date and a mode selected. -/
def formEx : SearchForm := ⟨5, 2, true, false, ""⟩

theorem empty_range_rejected_witness :
    buildPerformanceSeries [] 3 1 (fun _ => 0) (fun _ => 0) =
      Except.error RangeError.emptyRange ∧
    buildPerformanceSeries [10] 4 5 (fun _ => 0) (fun _ => 0) =
      Except.error RangeError.emptyRange ∧
    ((submitSearch formEx).requested = false ∧
      (submitSearch formEx).error ≠ "") :=
  ⟨(empty_range_rejected [] 3 1 (fun _ => 0) (fun _ => 0) formEx).1
      (by decide),
   (empty_range_rejected [10] 4 5 (fun _ => 0) (fun _ => 0) formEx).2.1
      (by decide),
   (empty_range_rejected [] 3 1 (fun _ => 0) (fun _ => 0) formEx).2.2
      (by decide)⟩

/-- Modelled from the spec: division guarded against a zero denominator
(spec §4.4) — every ratio with denominator 0 is null, never coerced to a
number. -/
def safeDiv (a b : ℚ) : Option ℚ :=
  if b = 0 then none else some (a / b)

/-- Modelled from the spec: CAGR (spec §4.4), with real exponentiation
abstracted as the function argument rpow — the value is
rpow (1+return) (1/years) − 1 and it is defined (non-null) exactly when
years > 0 and 1 + return > 0. -/
def cagr (rpow : ℚ → ℚ → ℚ) (ret years : ℚ) : Option ℚ :=
  if 0 < years ∧ 0 < 1 + ret then some (rpow (1 + ret) (1 / years) - 1)
  else none

/-- Modelled from the spec: Sharpe ratio (spec §4.4) — mean over stddev of
the daily returns, annualized by the factor sqrt252 (abstracted as an
argument); null when the stddev is 0. -/
def sharpeRatio (sqrt252 mean stddev : ℚ) : Option ℚ :=
  (safeDiv mean stddev).map (fun r => r * sqrt252)

/-- Claim C7: CAGR equals rpow (1+return) (1/years) − 1 exactly when
years > 0 and 1+return > 0, and is null whenever years ≤ 0 or
1+return ≤ 0 (the Option result has no NaN or infinity to produce); more
generally any guarded ratio with a zero denominator, the Sharpe ratio
included, is null rather than zero. -/
theorem cagr_null_iff_degenerate (rpow : ℚ → ℚ → ℚ) (ret years : ℚ) :
    (0 < years → 0 < 1 + ret →
      cagr rpow ret years = some (rpow (1 + ret) (1 / years) - 1)) ∧
    (years ≤ 0 ∨ 1 + ret ≤ 0 → cagr rpow ret years = none) ∧
    (∀ a : ℚ, safeDiv a 0 = none) ∧
    (∀ s m : ℚ, sharpeRatio s m 0 = none) := by
  refine ⟨?_, ?_, ?_, ?_⟩
  · intro hy hr
    unfold cagr
    rw [if_pos ⟨hy, hr⟩]
  · intro h
    unfold cagr
    rw [if_neg]
    rintro ⟨hy, hr⟩
    rcases h with h | h
    · exact absurd hy (not_lt.mpr h)
    · exact absurd hr (not_lt.mpr h)
  · intro a
    unfold safeDiv
    rw [if_pos rfl]
  · intro s m
    unfold sharpeRatio safeDiv
    rw [if_pos rfl]
    rfl

theorem cagr_null_iff_degenerate_witness :
    cagr (fun a _ => a) 1 2 = some ((fun (a : ℚ) (_ : ℚ) => a) (1 + 1) (1 / 2) - 1) ∧
    cagr (fun a _ => a) 1 0 = none ∧
    cagr (fun a _ => a) (-2) 2 = none ∧
    safeDiv 7 0 = none ∧
    sharpeRatio 16 3 0 = none := by
  refine ⟨?_, ?_, ?_, ?_, ?_⟩
  · exact (cagr_null_iff_degenerate (fun a _ => a) 1 2).1 (by norm_num) (by norm_num)
  · exact (cagr_null_iff_degenerate (fun a _ => a) 1 0).2.1 (Or.inl (by norm_num))
  · exact (cagr_null_iff_degenerate (fun a _ => a) (-2) 2).2.1 (Or.inr (by norm_num))
  · exact (cagr_null_iff_degenerate (fun a _ => a) 0 0).2.2.1 7
  · exact (cagr_null_iff_degenerate (fun a _ => a) 0 0).2.2.2 16 3

/-- JavaScript values reaching the price field of the API client. -/
inductive JsVal : Type where
  | jsNull : JsVal
  | jsUndefined : JsVal
  | jsNum (q : ℚ) : JsVal
  | jsStr (s : String) : JsVal
  deriving DecidableEq

/-- Embedded from frontend/src/api.js `createTransaction`: a price that is
null, undefined, or the empty string is sent as an explicit null in the
payload; any other value is passed through unchanged. -/
def createTransactionPrice (price : JsVal) : JsVal :=
  match price with
  | JsVal.jsNull => JsVal.jsNull
  | JsVal.jsUndefined => JsVal.jsNull
  | JsVal.jsStr s => if s = "" then JsVal.jsNull else JsVal.jsStr s
  | JsVal.jsNum q => JsVal.jsNum q

/-- Failure of a single addTransaction operation (spec §7): no market close
available for an auto-priced transaction. -/
inductive TxError : Type where
  | priceUnavailable : TxError
  deriving DecidableEq

/-- Modelled from the spec: price resolution of addTransaction (spec §6) —
an explicit price is kept; a null price is resolved through
PriceOracle.closeOnDate, and a missing close is fatal to that single
operation. -/
def resolvePrice (closeOnDate : String → Nat → Option ℚ)
    (ticker : String) (date : Nat) (price : Option ℚ) : Except TxError ℚ :=
  match price with
  | some p => Except.ok p
  | none =>
      match closeOnDate ticker date with
      | some c => Except.ok c
      | none => Except.error TxError.priceUnavailable

/-- Modelled from the spec: addTransaction persistence (spec §6) — the
transaction is appended with its resolved price; a failed resolution
persists nothing. -/
def addTransactionPersist (closeOnDate : String → Nat → Option ℚ)
    (ledger : List Tx) (txId : Nat) (ticker : String) (side : Side)
    (shares : ℚ) (price : Option ℚ) (date : Nat) : Except TxError (List Tx) :=
  match resolvePrice closeOnDate ticker date price with
  | Except.error err => Except.error err
  | Except.ok p => Except.ok (ledger ++ [⟨txId, ticker, side, shares, p, date⟩])

/-- Claim C9: addTransaction resolves a null price to the market close of
the trade date before persisting (and fails with PriceUnavailable for that
single operation when no close exists), keeps an explicit price unchanged;
and the API client normalizes a null, undefined, or empty-string price to
an explicit null in the payload while passing every other value through
unchanged. -/
theorem price_resolution_and_normalization
    (closeOnDate : String → Nat → Option ℚ) (ledger : List Tx)
    (txId : Nat) (ticker : String) (side : Side) (shares p c : ℚ)
    (date : Nat) :
    (closeOnDate ticker date = some c →
      addTransactionPersist closeOnDate ledger txId ticker side shares none date =
        Except.ok (ledger ++ [⟨txId, ticker, side, shares, c, date⟩])) ∧
    (closeOnDate ticker date = none →
      addTransactionPersist closeOnDate ledger txId ticker side shares none date =
        Except.error TxError.priceUnavailable) ∧
    (addTransactionPersist closeOnDate ledger txId ticker side shares (some p) date =
      Except.ok (ledger ++ [⟨txId, ticker, side, shares, p, date⟩])) ∧
    createTransactionPrice JsVal.jsNull = JsVal.jsNull ∧
    createTransactionPrice JsVal.jsUndefined = JsVal.jsNull ∧
    createTransactionPrice (JsVal.jsStr "") = JsVal.jsNull ∧
    (∀ v : JsVal, v ≠ JsVal.jsNull → v ≠ JsVal.jsUndefined →
      v ≠ JsVal.jsStr "" → createTransactionPrice v = v) := by
  refine ⟨?_, ?_, ?_, rfl, rfl, by simp [createTransactionPrice], ?_⟩
  · intro hc
    unfold addTransactionPersist resolvePrice
    rw [hc]
  · intro hc
    unfold addTransactionPersist resolvePrice
    rw [hc]
  · rfl
  · intro v hn hu hs
    cases v with
    | jsNull => exact absurd rfl hn
    | jsUndefined => exact absurd rfl hu
    | jsNum q => rfl
    | jsStr s =>
        have : s ≠ "" := fun h => hs (by rw [h])
        simp [createTransactionPrice, this]

/-- Example close-price oracle: AAPL closes at 111 on day 4. -/
def closeOnDateEx : String → Nat → Option ℚ :=
  fun tk d => if tk = "AAPL" ∧ d = 4 then some 111 else none

theorem price_resolution_and_normalization_witness :
    addTransactionPersist closeOnDateEx [] 9 "AAPL" Side.buy 2 none 4 =
      Except.ok [⟨9, "AAPL", Side.buy, 2, 111, 4⟩] ∧
    addTransactionPersist closeOnDateEx [] 9 "MSFT" Side.buy 2 none 4 =
      Except.error TxError.priceUnavailable ∧
    addTransactionPersist closeOnDateEx [] 9 "AAPL" Side.buy 2 (some 99) 4 =
      Except.ok [⟨9, "AAPL", Side.buy, 2, 99, 4⟩] ∧
    createTransactionPrice (JsVal.jsStr "") = JsVal.jsNull ∧
    createTransactionPrice (JsVal.jsNum 42) = JsVal.jsNum 42 := by
  refine ⟨?_, ?_, ?_, ?_, ?_⟩
  · exact (price_resolution_and_normalization closeOnDateEx [] 9 "AAPL"
      Side.buy 2 0 111 4).1 (by simp [closeOnDateEx])
  · exact (price_resolution_and_normalization closeOnDateEx [] 9 "MSFT"
      Side.buy 2 0 111 4).2.1 (by simp [closeOnDateEx])
  · exact (price_resolution_and_normalization closeOnDateEx [] 9 "AAPL"
      Side.buy 2 99 0 4).2.2.1
  · exact (price_resolution_and_normalization closeOnDateEx [] 9 "AAPL"
      Side.buy 2 0 0 4).2.2.2.2.2.1
  · exact (price_resolution_and_normalization closeOnDateEx [] 9 "AAPL"
      Side.buy 2 0 0 4).2.2.2.2.2.2 (JsVal.jsNum 42) (by simp) (by simp)
      (by simp)

/-- Embedded from frontend/src/hooks/useSorting.js: one result row as seen
by the sort — the `return` and `stddev` fields after the Number()
conversion, where `none` stands for a null or non-finite sort value. -/
structure SRow : Type where
  retVal : Option ℚ
  stddevVal : Option ℚ
  deriving DecidableEq

/-- Embedded from frontend/src/hooks/useSorting.js: `getVal` — the stddev
field under the "stddev" sort key and the return field under any other
key. -/
def getVal (sortKey : String) (r : SRow) : Option ℚ :=
  if sortKey = "stddev" then r.stddevVal else r.retVal

/-- Embedded from frontend/src/hooks/useSorting.js: the comparator passed
to Array.prototype.sort — null values compare after everything, two
numeric values compare by their difference, negated for descending
order. -/
def cmpRows (sortKey : String) (asc : Bool) (a b : SRow) : ℚ :=
  match getVal sortKey a, getVal sortKey b with
  | none, none => 0
  | none, some _ => 1
  | some _, none => -1
  | some av, some bv => cond asc (av - bv) (-(av - bv))

/-- Non-positive comparator outcome, as the sortedness order induced by the
comparator. -/
def rowLe (sortKey : String) (asc : Bool) (a b : SRow) : Bool :=
  decide (cmpRows sortKey asc a b ≤ 0)

/-- Embedded from frontend/src/hooks/useSorting.js: `sortedRows` — a copy
of the input rows sorted (stably) by the comparator; the input list is left
untouched. -/
def sortedRows (sortKey : String) (asc : Bool) (rows : List SRow) : List SRow :=
  rows.mergeSort (rowLe sortKey asc)

theorem rowLe_trans (k : String) (asc : Bool) :
    ∀ a b c : SRow, rowLe k asc a b = true → rowLe k asc b c = true →
      rowLe k asc a c = true := by
  intro a b c hab hbc
  unfold rowLe at hab hbc ⊢
  rw [decide_eq_true_eq] at hab hbc ⊢
  unfold cmpRows at hab hbc ⊢
  rcases hga : getVal k a with _ | av <;> rcases hgb : getVal k b with _ | bv <;>
    rcases hgc : getVal k c with _ | cv <;>
    simp only [hga, hgb, hgc] at hab hbc ⊢ <;>
    cases asc <;>
    (try simp only [Bool.cond_true, Bool.cond_false] at hab hbc ⊢) <;>
    linarith

theorem cmpRows_swap (k : String) (asc : Bool) (a b : SRow) :
    cmpRows k asc b a = -(cmpRows k asc a b) := by
  unfold cmpRows
  rcases hga : getVal k a with _ | av <;> rcases hgb : getVal k b with _ | bv <;>
    simp only [hga, hgb] <;> cases asc <;>
    (try simp only [Bool.cond_true, Bool.cond_false]) <;> ring

theorem rowLe_total (k : String) (asc : Bool) :
    ∀ a b : SRow, (rowLe k asc a b || rowLe k asc b a) = true := by
  intro a b
  unfold rowLe
  rw [Bool.or_eq_true]
  rcases le_or_lt (cmpRows k asc a b) 0 with h | h
  · exact Or.inl (decide_eq_true h)
  · refine Or.inr (decide_eq_true ?_)
    rw [cmpRows_swap]
    linarith

/-- Claim C10: for every row list, sort key, and direction, `sortedRows` is
a permutation of the input rows in which no row with a null (or non-finite)
sort value precedes a row with a numeric sort value; the input list itself
is unchanged (the model sorts a copy, as the hook spreads the array). -/
theorem sortedRows_perm_nulls_last (k : String) (asc : Bool)
    (rows : List SRow) :
    (sortedRows k asc rows).Perm rows ∧
    List.Pairwise
      (fun a b => ¬ (getVal k a = none ∧ getVal k b ≠ none))
      (sortedRows k asc rows) := by
  constructor
  · exact List.mergeSort_perm rows (rowLe k asc)
  · have hs := List.sorted_mergeSort (rowLe_trans k asc) (rowLe_total k asc) rows
    refine List.Pairwise.imp ?_ hs
    intro a b hab
    rintro ⟨hna, hnb⟩
    obtain ⟨bv, hbv⟩ := Option.ne_none_iff_exists'.mp hnb
    unfold rowLe at hab
    rw [decide_eq_true_eq] at hab
    unfold cmpRows at hab
    simp only [hna, hbv] at hab
    norm_num at hab
